import Mathlib

/-!
Verification development for the darkseek conversational-search backend.

The definitions below are a shallow embedding of the Python source:

* `app/backend/core/utils.py`        → `sanitize_query`, `generate_query_hash`,
                                        `add_results`, `validate_query`
* `app/backend/core/caching.py`      → `RedisStore`, `get_cached_response`,
                                        `cache_response`
* `app/backend/api/search2_api.py`   → `combinedsearch`, `searchStream`
* `app/backend/api/llm_api.py`       → `generate_prompt`, `stream_query_llm`,
                                        `query_llm`
* `app/backend/core/search_manager.py` → `get_streaming_response`

Machine-word arithmetic inside MD5 is `Nat` with explicit `% 2^32`.
External I/O (HTTP requests, the Redis connection, the model endpoint,
the database session) is represented by explicit oracle parameters that
record the outcome of each call, and every side effect performed by the
orchestrator is logged in an ordered effect list.
-/

/-! ### Query normalization (`utils.sanitize_query`) -/

/-- Python whitespace recognised by `str.strip` and by the regex `\s`
(ASCII range; the source only ever feeds it client text). -/
def isPySpace (c : Char) : Bool :=
  c = ' ' || c = '\t' || c = '\n' || c = '\r' || c = '\x0b' || c = '\x0c'

/-- `str.strip()`: drop leading and trailing whitespace. -/
def stripChars (s : List Char) : List Char :=
  ((s.dropWhile isPySpace).reverse.dropWhile isPySpace).reverse

/-- Auxiliary loop of whitespace collapsing: `re.sub(r"\s+", " ", s)`.
The flag records whether the previous character was part of a
whitespace run that has already produced its single space. -/
def collapseWS : List Char → Bool → List Char
  | [], _ => []
  | c :: rest, lastSpace =>
    if isPySpace c then
      if lastSpace then collapseWS rest true
      else ' ' :: collapseWS rest true
    else c :: collapseWS rest false

/-- `utils.sanitize_query`: `query.strip().lower()` followed by
`re.sub(r"\s+", " ", query)`. -/
def sanitize_query (q : String) : String :=
  ⟨collapseWS ((stripChars q.data).map Char.toLower) false⟩

/-- `utils.validate_query`: sanitize, and reject the empty result. -/
def validate_query (q : String) : Option String :=
  let s := sanitize_query q
  if s = "" then none else some s

/-! ### MD5 (`hashlib.md5(...).hexdigest()` used by `generate_query_hash`) -/

/-- UTF-8 encoding of one code point (`str.encode("utf-8")`). -/
def utf8EncodeChar (n : Nat) : List Nat :=
  if n < 0x80 then [n]
  else if n < 0x800 then [0xC0 + n / 0x40, 0x80 + n % 0x40]
  else if n < 0x10000 then
    [0xE0 + n / 0x1000, 0x80 + (n / 0x40) % 0x40, 0x80 + n % 0x40]
  else
    [0xF0 + n / 0x40000, 0x80 + (n / 0x1000) % 0x40,
     0x80 + (n / 0x40) % 0x40, 0x80 + n % 0x40]

def utf8Encode (s : List Char) : List Nat :=
  (s.map (fun c => utf8EncodeChar c.toNat)).flatten

/-- The 64 MD5 round constants. -/
def md5K : List Nat :=
  [0xd76aa478, 0xe8c7b756, 0x242070db, 0xc1bdceee,
   0xf57c0faf, 0x4787c62a, 0xa8304613, 0xfd469501,
   0x698098d8, 0x8b44f7af, 0xffff5bb1, 0x895cd7be,
   0x6b901122, 0xfd987193, 0xa679438e, 0x49b40821,
   0xf61e2562, 0xc040b340, 0x265e5a51, 0xe9b6c7aa,
   0xd62f105d, 0x02441453, 0xd8a1e681, 0xe7d3fbc8,
   0x21e1cde6, 0xc33707d6, 0xf4d50d87, 0x455a14ed,
   0xa9e3e905, 0xfcefa3f8, 0x676f02d9, 0x8d2a4c8a,
   0xfffa3942, 0x8771f681, 0x6d9d6122, 0xfde5380c,
   0xa4beea44, 0x4bdecfa9, 0xf6bb4b60, 0xbebfbc70,
   0x289b7ec6, 0xeaa127fa, 0xd4ef3085, 0x04881d05,
   0xd9d4d039, 0xe6db99e5, 0x1fa27cf8, 0xc4ac5665,
   0xf4292244, 0x432aff97, 0xab9423a7, 0xfc93a039,
   0x655b59c3, 0x8f0ccc92, 0xffeff47d, 0x85845dd1,
   0x6fa87e4f, 0xfe2ce6e0, 0xa3014314, 0x4e0811a1,
   0xf7537e82, 0xbd3af235, 0x2ad7d2bb, 0xeb86d391]

/-- The 64 MD5 per-round left-rotation amounts. -/
def md5S : List Nat :=
  [7, 12, 17, 22, 7, 12, 17, 22, 7, 12, 17, 22, 7, 12, 17, 22,
   5, 9, 14, 20, 5, 9, 14, 20, 5, 9, 14, 20, 5, 9, 14, 20,
   4, 11, 16, 23, 4, 11, 16, 23, 4, 11, 16, 23, 4, 11, 16, 23,
   6, 10, 15, 21, 6, 10, 15, 21, 6, 10, 15, 21, 6, 10, 15, 21]

/-- 32-bit left rotation on a `Nat` below `2^32`. -/
def rotl32 (x s : Nat) : Nat :=
  ((x <<< s) ||| (x >>> (32 - s))) % 4294967296

/-- One MD5 compression round over the message words `M`. -/
def md5Step (M : List Nat) (st : Nat × Nat × Nat × Nat) (i : Nat) :
    Nat × Nat × Nat × Nat :=
  let (a, b, c, d) := st
  let fg : Nat × Nat :=
    if i < 16 then ((b &&& c) ||| ((4294967295 ^^^ b) &&& d), i)
    else if i < 32 then ((d &&& b) ||| ((4294967295 ^^^ d) &&& c), (5 * i + 1) % 16)
    else if i < 48 then (b ^^^ c ^^^ d, (3 * i + 5) % 16)
    else (c ^^^ (b ||| (4294967295 ^^^ d)), (7 * i) % 16)
  let f := (fg.1 + a + md5K.getD i 0 + M.getD fg.2 0) % 4294967296
  (d, (b + rotl32 f (md5S.getD i 0)) % 4294967296, b, c)

/-- Process one padded 16-word chunk, updating the running digest state. -/
def md5ProcessChunk (h : Nat × Nat × Nat × Nat) (M : List Nat) :
    Nat × Nat × Nat × Nat :=
  let (a0, b0, c0, d0) := h
  let (a, b, c, d) := (List.range 64).foldl (md5Step M) (a0, b0, c0, d0)
  ((a0 + a) % 4294967296, (b0 + b) % 4294967296,
   (c0 + c) % 4294967296, (d0 + d) % 4294967296)

/-- Little-endian byte decomposition of `n` into `count` bytes. -/
def leBytes (n : Nat) : Nat → List Nat
  | 0 => []
  | count + 1 => (n % 256) :: leBytes (n / 256) count

/-- Group bytes into little-endian 32-bit words. -/
def toWordsLE : List Nat → List Nat
  | b0 :: b1 :: b2 :: b3 :: rest =>
    (b0 + b1 * 256 + b2 * 65536 + b3 * 16777216) :: toWordsLE rest
  | _ => []

/-- MD5 padding: a `0x80` byte, zeros to 56 mod 64, then the bit length
as eight little-endian bytes. -/
def md5Pad (msg : List Nat) : List Nat :=
  msg ++ [0x80] ++ List.replicate ((119 - msg.length % 64) % 64) 0
      ++ leBytes (msg.length * 8) 8

/-- Split a byte list into 64-byte chunks.  Structural recursion on a
fuel argument so the kernel can evaluate it; each step consumes at
least one byte, so `bs.length` fuel always suffices. -/
def chunks64Go : Nat → List Nat → List (List Nat)
  | 0, _ => []
  | fuel + 1, bs => if bs = [] then [] else bs.take 64 :: chunks64Go fuel (bs.drop 64)

def chunks64 (bs : List Nat) : List (List Nat) :=
  chunks64Go bs.length bs

def hexDigitChar (n : Nat) : Char :=
  if n < 10 then Char.ofNat (48 + n) else Char.ofNat (87 + n)

def byteToHex (b : Nat) : List Char :=
  [hexDigitChar (b / 16), hexDigitChar (b % 16)]

/-- `hashlib.md5(bytes).hexdigest()`. -/
def md5Hex (msg : List Nat) : String :=
  let st := (chunks64 (md5Pad msg)).foldl
    (fun h ch => md5ProcessChunk h (toWordsLE ch))
    (0x67452301, 0xefcdab89, 0x98badcfe, 0x10325476)
  let (a, b, c, d) := st
  ⟨((leBytes a 4 ++ leBytes b 4 ++ leBytes c 4 ++ leBytes d 4).map byteToHex).flatten⟩

/-- `utils.generate_query_hash`: the MD5 hex digest of the UTF-8 encoded
query text.  Note: applied to the text it is given, with no
normalization of its own. -/
def generate_query_hash (q : String) : String :=
  md5Hex (utf8Encode q.data)

/-! ### Data model -/

/-- A search result record `{title, link, snippet}`. -/
structure SearchResult where
  title : String
  link : String
  snippet : String
deriving DecidableEq

/-- Outcome of one provider call after its tenacity retry policy, as seen
by `asyncio.gather(..., return_exceptions=True)`: either the returned
list, or a propagated exception (`failed`). -/
inductive ProviderOutcome where
  | ok (results : List SearchResult)
  | failed
deriving DecidableEq

/-- An event yielded by the search aggregator: either
`{"type": "search_results", "results": items}` or
`{"type": "error", "content": message}`. -/
inductive SEvent where
  | results (items : List SearchResult)
  | error (content : String)
deriving DecidableEq

/-- A cached value `{response, llm_used, search_results}` as stored by
`caching.cache_response`.  `llm_used` is the raw `llm_name` argument,
which may be `None`. -/
structure CacheEntry where
  response : String
  llm_used : Option String
  search_results : List SearchResult
deriving DecidableEq

/-- One side effect performed by the backend, in the order executed.
`rateIncr` is the `INCR`+`EXPIRE` pair on the session chat counter;
`providerCall` is one outbound search-provider HTTP request;
`modelCall` is one model-endpoint invocation (streaming connection or
`LLMChain.ainvoke`); `dbWrite` is the scheduling of the fire-and-forget
`save_query_to_db` task. -/
inductive Effect where
  | rateIncr
  | cacheGet
  | providerCall
  | modelCall
  | cacheWrite (key : String) (entry : CacheEntry)
  | dbWrite (query : String) (response : String)
deriving DecidableEq

def Effect.isProviderCall : Effect → Bool
  | .providerCall => true
  | _ => false

def Effect.isModelCall : Effect → Bool
  | .modelCall => true
  | _ => false

def Effect.isCacheWrite : Effect → Bool
  | .cacheWrite _ _ => true
  | _ => false

def Effect.isDbWrite : Effect → Bool
  | .dbWrite _ _ => true
  | _ => false

def Effect.isCacheGet : Effect → Bool
  | .cacheGet => true
  | _ => false

/-! ### Multi-provider search aggregation (`search2_api.SearchAPI`) -/

/-- The per-provider yielding loop inside
`SearchAPI.combinedsearch`: walk the provider result list, skip links
already seen, yield each new result, and return early once
`len(seen_links) >= num_limit` (checked after the yield). -/
structure EmitOut where
  emitted : List SearchResult
  seen : List String
  stopped : Bool
deriving DecidableEq

def emitLoop : List SearchResult → List String → Nat → EmitOut
  | [], seen, _ => ⟨[], seen, false⟩
  | r :: rest, seen, n =>
    if r.link ∈ seen then emitLoop rest seen n
    else if n ≤ seen.length + 1 then ⟨[r], r.link :: seen, true⟩
    else
      ⟨r :: (emitLoop rest (r.link :: seen) n).emitted,
       (emitLoop rest (r.link :: seen) n).seen,
       (emitLoop rest (r.link :: seen) n).stopped⟩

/-- The list a provider outcome contributes to the merge step:
a failed provider is skipped by the `isinstance(..., list)` guard,
which is observationally an empty contribution. -/
def ProviderOutcome.safeResults : ProviderOutcome → List SearchResult
  | .ok rs => rs
  | .failed => []

/-- `SearchAPI.combinedsearch(query, num_limit)` with the Google and
DuckDuckGo call outcomes supplied as oracles.  Returns the yielded
events together with the provider-call effects performed.  Google
results are yielded first, then DuckDuckGo, sharing one `seen_links`
set; each yield carries a single-element `results` list. -/
def combinedsearch (query : String) (numLimit : Nat)
    (google duck : ProviderOutcome) : List SEvent × List Effect :=
  match validate_query query with
  | none => ([SEvent.error "Invalid query. Please provide a valid search term."], [])
  | some _ =>
    let effs := [Effect.providerCall, Effect.providerCall]
    let g := emitLoop google.safeResults [] numLimit
    if g.stopped then
      (g.emitted.map (fun r => SEvent.results [r]), effs)
    else
      let d := emitLoop duck.safeResults g.seen numLimit
      ((g.emitted ++ d.emitted).map (fun r => SEvent.results [r]), effs)

/-- All results carried by `search_results` events, in order — the
collection loop that extends `search_results` with the results field
of each `search_results` event. -/
def resultsOf (evts : List SEvent) : List SearchResult :=
  (evts.map fun e =>
    match e with
    | .results items => items
    | .error _ => []).flatten

/-! Specification-side characterizations (following the wording of the spec,
for comparison with the aggregator translated from the source). -/

/-- Spec-side dedup: keep the first occurrence of every link not yet
seen, with no cap. -/
def specDedup : List SearchResult → List String → List SearchResult
  | [], _ => []
  | r :: rest, seen =>
    if r.link ∈ seen then specDedup rest seen
    else r :: specDedup rest (r.link :: seen)

/-- The seen-link set after a spec-side dedup pass. -/
def specSeen : List SearchResult → List String → List String
  | [], seen => seen
  | r :: rest, seen =>
    if r.link ∈ seen then specSeen rest seen
    else specSeen rest (r.link :: seen)

/-! ### `utils.add_results` -/

structure AddOut where
  combined : List SearchResult
  seen : List String
  limitHit : Bool
deriving DecidableEq

/-- `utils.add_results(combined_results, seen_links, results, num_limit)`:
append each result whose link is unseen, record its link, and return
`True` as soon as `len(combined_results) >= num_limit` after an append. -/
def add_results (combined : List SearchResult) (seen : List String) :
    List SearchResult → Nat → AddOut
  | [], _ => ⟨combined, seen, false⟩
  | r :: rest, numLimit =>
    if r.link ∈ seen then add_results combined seen rest numLimit
    else if numLimit ≤ combined.length + 1 then
      ⟨combined ++ [r], r.link :: seen, true⟩
    else add_results (combined ++ [r]) (r.link :: seen) rest numLimit

/-! ### Response cache (`caching.CacheManager` over Redis) -/

/-- The Redis keyspace used by the response cache: key, absolute expiry
time, stored entry.  `SETEX` conses a fresh binding; lookup takes the
first binding for a key and treats an expired one as absent (Redis
lazy expiry). -/
abbrev RedisStore := List (String × Nat × CacheEntry)

def redisGet : RedisStore → Nat → String → Option CacheEntry
  | [], _, _ => none
  | (k, expiry, v) :: rest, now, key =>
    if k = key then (if now < expiry then some v else none)
    else redisGet rest now key

/-- `CacheManager.get_cached_response`: hash the query text as given
(no normalization) and look it up. -/
def get_cached_response (st : RedisStore) (now : Nat) (query : String) :
    Option CacheEntry :=
  redisGet st now (generate_query_hash query)

/-- `CacheManager.cache_response`: `SETEX` of the entry under the hash
of the query text as given, with a 3600-second TTL. -/
def cache_response (st : RedisStore) (now : Nat) (query : String)
    (responseData : String) (llmUsed : Option String)
    (searchResults : List SearchResult) : RedisStore :=
  (generate_query_hash query, now + 3600,
    CacheEntry.mk responseData llmUsed searchResults) :: st

/-! ### Model client (`llm_api.LLMAPI`) -/

def DEFAULT_LLM : String := "gemma_flash_2.0"

/-- `config.LLM_CONFIGS`, reduced to the fields the client reads:
model name and `tgi_server_url`. -/
def LLM_CONFIGS : List (String × String) :=
  [("gemma_flash_2.0",
    "https://api-inference.huggingface.co/models/google/gemma-1.1-2b-it"),
   ("deepseek_r1_llm",
    "https://api-inference.huggingface.co/models/deepseek-ai/deepseek-coder-1.3b-instruct"),
   ("qwen_2.5_max",
    "https://api-inference.huggingface.co/models/Qwen/Qwen1.5-72B-Chat")]

/-- `LLMAPI._get_llm` name resolution: `some tgi_server_url` for a
configured model, `none` (a raised `ValueError`) otherwise. -/
def lookupConfig (nm : String) : Option String :=
  (LLM_CONFIGS.find? (fun p => p.1 == nm)).map (fun p => p.2)

/-- The context block of `LLMAPI.generate_prompt`:
one line `Source N: title - snippet` per search result. -/
def contextOf (rs : List SearchResult) : String :=
  String.intercalate "\n"
    (rs.enum.map (fun p =>
      "Source " ++ toString (p.1 + 1) ++ ": " ++ p.2.title ++ " - " ++ p.2.snippet))

/-- `LLMAPI.generate_prompt`, with the `PromptTemplate` placeholder
substitution performed directly. -/
def generate_prompt (query : String) (rs : List SearchResult) : String :=
  "You are a helpful AI assistant that provides concise answers based on the given context.\n        Context: "
    ++ contextOf rs ++ "\n        Query: " ++ query ++ "\n        Concise Answer:"

/-- A chunk yielded by `stream_query_llm`: a token dict
`{"type": "token", "text", ...}` (whose `metadata` key is present on
first emission and absent on replay), or an error/warning dict
`{"type": etype, "message", "status_code"}` from `_handle_error`. -/
inductive LLMChunk where
  | token (text : String) (metadata : Option String)
  | fault (etype : String) (message : String) (statusCode : String)
deriving DecidableEq

/-- One line of the token stream as the reader loop classifies it:
a JSON line with a `token` field, a JSON line with an `error` field,
or a blank/unparseable line that is skipped. -/
inductive LineItem where
  | tokenLine (text : String) (metadata : String)
  | errorLine (message : String)
  | badLine
deriving DecidableEq

/-- The `async for line in response.aiter_lines()` loop body: returns
the chunks yielded and the `partial_results` token-text accumulator. -/
def processLines : List LineItem → List LLMChunk × List String
  | [] => ([], [])
  | .tokenLine t m :: rest =>
    let out := processLines rest
    (.token t (some m) :: out.1, t :: out.2)
  | .errorLine msg :: rest =>
    let out := processLines rest
    (.fault "error" msg "N/A" :: out.1, out.2)
  | .badLine :: rest => processLines rest

/-- Outcome of opening the streaming connection.  `ok`: the POST
succeeded and the line loop runs.  `statusError`: `raise_for_status`
raised `httpx.HTTPStatusError`, handled by its dedicated `except`
branch.  `raised`: an exception propagates out of the generator (the
`httpx.RequestError` retry path of `_retry_request` crashes on a
missing `asyncio` import, and the remaining handlers dereference a
missing `response` attribute, so those failures surface to the caller
as a raised exception with the given text). -/
inductive ConnectOutcome where
  | ok
  | statusError (code : Nat)
  | raised (message : String)
deriving DecidableEq

/-- `LLMAPI.stream_query_llm(query, search_results, llm_name)` with the
environment (API token presence, connection outcome, streamed lines,
and whether the line loop was interrupted by an exception) supplied as
oracles.  `Except.error` is an exception propagating out of the
generator — in particular the `ValueError` of `_get_llm` for an
unconfigured model name.  On interruption the loop emits a warning
chunk and replays the accumulated `partial_results` texts as token
chunks without metadata, then returns. -/
def stream_query_llm (query : String) (searchResults : List SearchResult)
    (llmNameArg : Option String) (hfToken : Bool) (connect : ConnectOutcome)
    (lines : List LineItem) (interrupted : Bool) :
    Except String (List LLMChunk × List Effect) :=
  let llmName := llmNameArg.getD DEFAULT_LLM
  match lookupConfig llmName with
  | none => .error ("LLM \x27" ++ llmName ++ "\x27 is not supported.")
  | some tgiUrl =>
    let _prompt := generate_prompt query searchResults
    if tgiUrl = "" then
      .ok ([.fault "error" ("TGI server URL not configured for LLM: " ++ llmName) "N/A"], [])
    else if !hfToken then
      .ok ([.fault "error" "API token is missing." "N/A"], [])
    else
      match connect with
      | .raised msg => .error msg
      | .statusError code =>
        .ok ([.fault "error" ("Server returned " ++ toString code) (toString code)],
             [.modelCall])
      | .ok =>
        let out := processLines lines
        if interrupted then
          .ok (out.1
                ++ [.fault "warning" "Streaming failed, providing partial results." "N/A"]
                ++ out.2.map (fun t => .token t none),
               [.modelCall])
        else .ok (out.1, [.modelCall])

/-- `LLMAPI.query_llm(query, search_results, llm_name)` with the
`LLMChain.ainvoke` outcome supplied as an oracle (`some text` on
success, `none` when it raises).  `_get_llm` runs before the
`try` block, so an unconfigured model name raises out of the function;
any invocation failure inside the `try` returns the fixed error
string. -/
def query_llm (query : String) (searchResults : List SearchResult)
    (llmNameArg : Option String) (invoke : Option String) :
    Except String (String × List Effect) :=
  let llmName := llmNameArg.getD DEFAULT_LLM
  match lookupConfig llmName with
  | none => .error ("LLM \x27" ++ llmName ++ "\x27 is not supported.")
  | some _ =>
    let _prompt := generate_prompt query searchResults
    match invoke with
    | some text => .ok (⟨stripChars text.data⟩, [Effect.modelCall])
    | none => .ok ("An error occurred while processing your request.", [Effect.modelCall])

/-! ### Streaming response orchestrator (`search_manager.SearchManager`) -/

/-- An event yielded to the client by `get_streaming_response`. -/
inductive OrchEvent where
  | errorEvt (message : String)
  | fullResponse (content : String) (searchResults : List SearchResult)
      (llmUsed : Option String)
  | searchResults (items : List SearchResult)
  | searchError (content : String)
  | llmResponse (content : LLMChunk)
deriving DecidableEq

/-- Search events are forwarded to the client verbatim. -/
def forwardSearchEvent : SEvent → OrchEvent
  | .results items => .searchResults items
  | .error msg => .searchError msg

/-- The outcomes of every external interaction one request can perform,
supplied as oracles: the chat counter value before the `INCR` issued
by this request, the Redis response-cache contents and current time, the two
provider outcomes (used identically by both search passes), and the
model-client outcomes. -/
structure OrchEnv where
  chatCountBefore : Nat
  store : RedisStore
  now : Nat
  google : ProviderOutcome
  duck : ProviderOutcome
  hfToken : Bool
  connect : ConnectOutcome
  lines : List LineItem
  interrupted : Bool
  invoke : Option String

/-- The observable behavior of one request: the events yielded to the
client, the ordered side-effect log, and the chat counter value after
the initial `INCR`. -/
structure Trace where
  events : List OrchEvent
  effects : List Effect
  counterAfter : Nat
deriving DecidableEq

/-- `SearchManager.get_streaming_response(query, session_id,
search_enabled, llm_name)` from `core/search_manager.py`:
increment the session chat counter; reject if it exceeds `MAX_CHATS`;
look up the full-response cache by the raw query; on a miss, forward
the aggregator events (when search is enabled), stream the model with
an empty result list, re-run the search to collect results, obtain the
canonical response via `query_llm`, cache it, and schedule the DB
write.  Exceptions raised by the model client are caught and yielded
as `{"error": f"Error querying LLM: {e}"}`. -/
def get_streaming_response (env : OrchEnv) (query : String)
    (searchEnabled : Bool) (llmName : Option String)
    (maxChats numLimit : Nat) : Trace :=
  let cnt := env.chatCountBefore + 1
  if maxChats < cnt then
    ⟨[.errorEvt "Chat limit reached for this session."], [.rateIncr], cnt⟩
  else
    match get_cached_response env.store env.now query with
    | some e =>
      ⟨[.fullResponse e.response e.search_results e.llm_used],
       [.rateIncr, .cacheGet], cnt⟩
    | none =>
      let s1 := if searchEnabled then combinedsearch query numLimit env.google env.duck
                else ([], [])
      let evts1 := s1.1.map forwardSearchEvent
      match stream_query_llm query [] llmName env.hfToken env.connect
          env.lines env.interrupted with
      | .error msg =>
        ⟨evts1 ++ [.errorEvt ("Error querying LLM: " ++ msg)],
         [.rateIncr, .cacheGet] ++ s1.2, cnt⟩
      | .ok streamOut =>
        let llmEvts := streamOut.1.map OrchEvent.llmResponse
        let s2 := combinedsearch query numLimit env.google env.duck
        let collected := resultsOf s2.1
        match query_llm query collected llmName env.invoke with
        | .error msg =>
          ⟨evts1 ++ llmEvts ++ [.errorEvt ("Error querying LLM: " ++ msg)],
           [.rateIncr, .cacheGet] ++ s1.2 ++ streamOut.2 ++ s2.2, cnt⟩
        | .ok fullOut =>
          ⟨evts1 ++ llmEvts,
           [.rateIncr, .cacheGet] ++ s1.2 ++ streamOut.2 ++ s2.2 ++ fullOut.2
             ++ [.cacheWrite (generate_query_hash query)
                   ⟨fullOut.1, llmName, collected⟩,
                 .dbWrite query fullOut.1],
           cnt⟩

/-! ### General helper lemmas -/

theorem find?_append_some {α} (p : α → Bool) {l₁ : List α} (l₂ : List α) {a : α}
    (h : l₁.find? p = some a) : (l₁ ++ l₂).find? p = some a := by
  induction l₁ with
  | nil => exact absurd h (by simp)
  | cons x xs ih =>
    by_cases hx : p x
    · rw [List.find?_cons_of_pos _ hx] at h
      rw [List.cons_append, List.find?_cons_of_pos _ hx]
      exact h
    · rw [List.find?_cons_of_neg _ hx] at h
      rw [List.cons_append, List.find?_cons_of_neg _ hx]
      exact ih h

theorem find?_append_none {α} (p : α → Bool) {l₁ : List α} (l₂ : List α)
    (h : l₁.find? p = none) : (l₁ ++ l₂).find? p = l₂.find? p := by
  induction l₁ with
  | nil => simp
  | cons x xs ih =>
    by_cases hx : p x
    · rw [List.find?_cons_of_pos _ hx] at h
      exact absurd h (by simp)
    · rw [List.find?_cons_of_neg _ hx] at h
      rw [List.cons_append, List.find?_cons_of_neg _ hx]
      exact ih h

/-! ### Lemmas about the aggregator emit loop -/

theorem emitLoop_length (rs : List SearchResult) :
    ∀ (seen : List String) (n : Nat),
      (emitLoop rs seen n).seen.length =
        (emitLoop rs seen n).emitted.length + seen.length := by
  induction rs with
  | nil => intro seen n; simp [emitLoop]
  | cons r rest ih =>
    intro seen n
    by_cases h : r.link ∈ seen
    · simp only [emitLoop, if_pos h]
      exact ih seen n
    · by_cases h2 : n ≤ seen.length + 1
      · simp only [emitLoop, if_neg h, if_pos h2, List.length_cons,
          List.length_singleton, List.length_nil]
        omega
      · simp only [emitLoop, if_neg h, if_neg h2, List.length_cons]
        have := ih (r.link :: seen) n
        simp only [List.length_cons] at this
        omega

theorem emitLoop_seen_mono (rs : List SearchResult) :
    ∀ (seen : List String) (n : Nat) (L : String),
      L ∈ seen → L ∈ (emitLoop rs seen n).seen := by
  induction rs with
  | nil => intro seen n L hL; exact hL
  | cons r rest ih =>
    intro seen n L hL
    by_cases h : r.link ∈ seen
    · simp only [emitLoop, if_pos h]
      exact ih seen n L hL
    · by_cases h2 : n ≤ seen.length + 1
      · simp only [emitLoop, if_neg h, if_pos h2]
        exact List.mem_cons_of_mem _ hL
      · simp only [emitLoop, if_neg h, if_neg h2]
        exact ih (r.link :: seen) n L (List.mem_cons_of_mem _ hL)

theorem emitLoop_emitted_seen (rs : List SearchResult) :
    ∀ (seen : List String) (n : Nat) (r : SearchResult),
      r ∈ (emitLoop rs seen n).emitted → r.link ∈ (emitLoop rs seen n).seen := by
  induction rs with
  | nil => intro seen n r hr; exact absurd hr (by simp [emitLoop])
  | cons r0 rest ih =>
    intro seen n r hr
    by_cases h : r0.link ∈ seen
    · simp only [emitLoop, if_pos h] at hr ⊢
      exact ih seen n r hr
    · by_cases h2 : n ≤ seen.length + 1
      · simp only [emitLoop, if_neg h, if_pos h2] at hr ⊢
        rw [List.mem_singleton] at hr
        subst hr
        exact List.mem_cons_self _ _
      · simp only [emitLoop, if_neg h, if_neg h2] at hr ⊢
        rcases List.mem_cons.mp hr with rfl | hr2
        · exact emitLoop_seen_mono rest _ n _ (List.mem_cons_self _ _)
        · exact ih _ n r hr2

theorem emitLoop_fresh (rs : List SearchResult) :
    ∀ (seen : List String) (n : Nat) (r : SearchResult),
      r ∈ (emitLoop rs seen n).emitted →
        r.link ∉ seen ∧ rs.find? (fun x => x.link == r.link) = some r := by
  induction rs with
  | nil => intro seen n r hr; exact absurd hr (by simp [emitLoop])
  | cons r0 rest ih =>
    intro seen n r hr
    by_cases h : r0.link ∈ seen
    · simp only [emitLoop, if_pos h] at hr
      obtain ⟨hfresh, hfind⟩ := ih seen n r hr
      refine ⟨hfresh, ?_⟩
      have hne : (r0.link == r.link) = false := by
        simp only [beq_eq_false_iff_ne, ne_eq]
        intro heq
        exact hfresh (heq ▸ h)
      rw [List.find?_cons_of_neg _ (by simp [hne]), hfind]
    · by_cases h2 : n ≤ seen.length + 1
      · simp only [emitLoop, if_neg h, if_pos h2, List.mem_singleton] at hr
        subst hr
        exact ⟨h, by rw [List.find?_cons_of_pos _ (by simp)]⟩
      · simp only [emitLoop, if_neg h, if_neg h2] at hr
        rcases List.mem_cons.mp hr with rfl | hr2
        · exact ⟨h, by rw [List.find?_cons_of_pos _ (by simp)]⟩
        · obtain ⟨hfresh, hfind⟩ := ih (r0.link :: seen) n r hr2
          have hne : r.link ≠ r0.link := fun heq =>
            hfresh (heq ▸ List.mem_cons_self _ _)
          refine ⟨fun hs => hfresh (List.mem_cons_of_mem _ hs), ?_⟩
          rw [List.find?_cons_of_neg _ (by simp [hne.symm]), hfind]

theorem emitLoop_nodup (rs : List SearchResult) :
    ∀ (seen : List String) (n : Nat),
      ((emitLoop rs seen n).emitted.map (fun r => r.link)).Nodup := by
  induction rs with
  | nil => intro seen n; simp [emitLoop]
  | cons r0 rest ih =>
    intro seen n
    by_cases h : r0.link ∈ seen
    · simp only [emitLoop, if_pos h]
      exact ih seen n
    · by_cases h2 : n ≤ seen.length + 1
      · simp only [emitLoop, if_neg h, if_pos h2]
        simp
      · simp only [emitLoop, if_neg h, if_neg h2, List.map_cons, List.nodup_cons]
        refine ⟨?_, ih (r0.link :: seen) n⟩
        intro hmem
        obtain ⟨r, hr, hlink⟩ := List.mem_map.mp hmem
        obtain ⟨hfresh, _⟩ := emitLoop_fresh rest _ n r hr
        exact hfresh (hlink ▸ List.mem_cons_self _ _)

theorem emitLoop_no_stop (rs : List SearchResult) :
    ∀ (seen : List String) (n : Nat),
      (emitLoop rs seen n).stopped = false →
      (emitLoop rs seen n).emitted = specDedup rs seen ∧
        (emitLoop rs seen n).seen = specSeen rs seen := by
  induction rs with
  | nil => intro seen n _; exact ⟨rfl, rfl⟩
  | cons r0 rest ih =>
    intro seen n hstop
    by_cases h : r0.link ∈ seen
    · simp only [emitLoop, if_pos h] at hstop ⊢
      simp only [specDedup, specSeen, if_pos h]
      exact ih seen n hstop
    · by_cases h2 : n ≤ seen.length + 1
      · simp [emitLoop, if_neg h, if_pos h2] at hstop
      · simp only [emitLoop, if_neg h, if_neg h2] at hstop ⊢
        simp only [specDedup, specSeen, if_neg h]
        obtain ⟨he, hs⟩ := ih (r0.link :: seen) n hstop
        exact ⟨by rw [he], hs⟩

theorem emitLoop_cap (rs : List SearchResult) :
    ∀ (seen : List String) (n : Nat), seen.length < n →
      (emitLoop rs seen n).seen.length ≤ n := by
  induction rs with
  | nil => intro seen n h; exact Nat.le_of_lt h
  | cons r0 rest ih =>
    intro seen n h
    by_cases hm : r0.link ∈ seen
    · simp only [emitLoop, if_pos hm]
      exact ih seen n h
    · by_cases h2 : n ≤ seen.length + 1
      · simp only [emitLoop, if_neg hm, if_pos h2, List.length_cons]
        omega
      · simp only [emitLoop, if_neg hm, if_neg h2]
        refine ih (r0.link :: seen) n ?_
        simp only [List.length_cons]
        omega

theorem emitLoop_no_stop_lt (rs : List SearchResult) :
    ∀ (seen : List String) (n : Nat),
      (emitLoop rs seen n).stopped = false → seen.length < n →
      (emitLoop rs seen n).seen.length < n := by
  induction rs with
  | nil => intro seen n _ h; exact h
  | cons r0 rest ih =>
    intro seen n hstop h
    by_cases hm : r0.link ∈ seen
    · simp only [emitLoop, if_pos hm] at hstop ⊢
      exact ih seen n hstop h
    · by_cases h2 : n ≤ seen.length + 1
      · simp [emitLoop, if_neg hm, if_pos h2] at hstop
      · simp only [emitLoop, if_neg hm, if_neg h2] at hstop ⊢
        refine ih (r0.link :: seen) n hstop ?_
        simp only [List.length_cons]
        omega

theorem specSeen_mono (rs : List SearchResult) :
    ∀ (seen : List String) (L : String), L ∈ seen → L ∈ specSeen rs seen := by
  induction rs with
  | nil => intro seen L h; exact h
  | cons r0 rest ih =>
    intro seen L h
    by_cases hm : r0.link ∈ seen
    · simp only [specSeen, if_pos hm]; exact ih seen L h
    · simp only [specSeen, if_neg hm]
      exact ih _ L (List.mem_cons_of_mem _ h)

theorem specSeen_mem (rs : List SearchResult) :
    ∀ (seen : List String) (x : SearchResult), x ∈ rs → x.link ∈ specSeen rs seen := by
  induction rs with
  | nil => intro seen x h; exact absurd h (by simp)
  | cons r0 rest ih =>
    intro seen x h
    by_cases hm : r0.link ∈ seen
    · simp only [specSeen, if_pos hm]
      rcases List.mem_cons.mp h with rfl | h2
      · exact specSeen_mono rest seen _ hm
      · exact ih seen x h2
    · simp only [specSeen, if_neg hm]
      rcases List.mem_cons.mp h with rfl | h2
      · exact specSeen_mono rest _ _ (List.mem_cons_self _ _)
      · exact ih _ x h2

theorem specSeen_length_le (rs : List SearchResult) :
    ∀ (seen : List String), seen.length ≤ (specSeen rs seen).length := by
  induction rs with
  | nil => intro seen; exact Nat.le_refl _
  | cons r0 rest ih =>
    intro seen
    by_cases hm : r0.link ∈ seen
    · simp only [specSeen, if_pos hm]; exact ih seen
    · simp only [specSeen, if_neg hm]
      have := ih (r0.link :: seen)
      simp only [List.length_cons] at this
      omega

theorem specDedup_append (a b : List SearchResult) :
    ∀ (seen : List String),
      specDedup (a ++ b) seen = specDedup a seen ++ specDedup b (specSeen a seen) := by
  induction a with
  | nil => intro seen; rfl
  | cons r0 rest ih =>
    intro seen
    by_cases hm : r0.link ∈ seen
    · simp only [List.cons_append, specDedup, specSeen, if_pos hm, List.append_eq]
      exact ih seen
    · simp only [List.cons_append, specDedup, specSeen, if_neg hm, List.append_eq]
      rw [ih]

theorem specSeen_append (a b : List SearchResult) :
    ∀ (seen : List String), specSeen (a ++ b) seen = specSeen b (specSeen a seen) := by
  induction a with
  | nil => intro seen; rfl
  | cons r0 rest ih =>
    intro seen
    by_cases hm : r0.link ∈ seen
    · simp only [List.cons_append, specSeen, if_pos hm, List.append_eq]
      exact ih seen
    · simp only [List.cons_append, specSeen, if_neg hm, List.append_eq]
      exact ih _

theorem emitLoop_no_stop_of_lt (rs : List SearchResult) :
    ∀ (seen : List String) (n : Nat), (specSeen rs seen).length < n →
      (emitLoop rs seen n).stopped = false := by
  induction rs with
  | nil => intro seen n _; rfl
  | cons r0 rest ih =>
    intro seen n h
    by_cases hm : r0.link ∈ seen
    · simp only [specSeen, if_pos hm] at h
      simp only [emitLoop, if_pos hm]
      exact ih seen n h
    · simp only [specSeen, if_neg hm] at h
      have hle := specSeen_length_le rest (r0.link :: seen)
      simp only [List.length_cons] at hle
      have h2 : ¬ n ≤ seen.length + 1 := by omega
      simp only [emitLoop, if_neg hm, if_neg h2]
      exact ih _ n h

theorem emitLoop_all (rs : List SearchResult) :
    ∀ (seen : List String) (n : Nat),
      (rs.map (fun r => r.link)).Nodup → (∀ r ∈ rs, r.link ∉ seen) →
      rs.length + seen.length ≤ n → (emitLoop rs seen n).emitted = rs := by
  induction rs with
  | nil => intro seen n _ _ _; rfl
  | cons r0 rest ih =>
    intro seen n hnd hfresh hlen
    have h : r0.link ∉ seen := hfresh r0 (List.mem_cons_self _ _)
    by_cases h2 : n ≤ seen.length + 1
    · simp only [emitLoop, if_neg h, if_pos h2]
      have : rest = [] := by
        simp only [List.length_cons] at hlen
        have : rest.length = 0 := by omega
        exact List.eq_nil_of_length_eq_zero this
      rw [this]
    · simp only [emitLoop, if_neg h, if_neg h2]
      have hrest : (emitLoop rest (r0.link :: seen) n).emitted = rest := by
        refine ih (r0.link :: seen) n ?_ ?_ ?_
        · simp only [List.map_cons, List.nodup_cons] at hnd
          exact hnd.2
        · intro r hr hmem
          rcases List.mem_cons.mp hmem with heq | hseen
          · simp only [List.map_cons, List.nodup_cons] at hnd
            exact hnd.1 (heq ▸ List.mem_map_of_mem _ hr)
          · exact hfresh r (List.mem_cons_of_mem _ hr) hseen
        · simp only [List.length_cons] at hlen ⊢
          omega
      rw [hrest]

/-- Exact characterization of the emit loop: it emits the first-seen
dedup of its input, truncated after `n - seen.length` elements when the
seen set starts below the limit, and after one element otherwise (the
limit check runs only after a yield). -/
theorem emitLoop_take (rs : List SearchResult) :
    ∀ (seen : List String) (n : Nat),
      (emitLoop rs seen n).emitted =
        (specDedup rs seen).take
          (if seen.length < n then n - seen.length else 1) := by
  induction rs with
  | nil => intro seen n; simp [emitLoop, specDedup]
  | cons r rest ih =>
    intro seen n
    by_cases h : r.link ∈ seen
    · simp only [emitLoop, if_pos h, specDedup]
      exact ih seen n
    · by_cases h2 : n ≤ seen.length + 1
      · simp only [emitLoop, if_neg h, if_pos h2, specDedup]
        have hk : (if seen.length < n then n - seen.length else 1) = 1 := by
          split <;> omega
        rw [hk]
        rfl
      · simp only [emitLoop, if_neg h, if_neg h2, specDedup]
        have h3 : seen.length < n := by omega
        have h4 : (r.link :: seen).length < n := by
          simp only [List.length_cons]
          omega
        rw [if_pos h3]
        have hk : n - seen.length = (n - (r.link :: seen).length) + 1 := by
          simp only [List.length_cons]
          omega
        rw [hk, List.take_succ_cons]
        have hrec := ih (r.link :: seen) n
        rw [if_pos h4] at hrec
        rw [hrec]

/-! ### Lemmas about `add_results` -/

theorem add_results_decomp (results : List SearchResult) :
    ∀ (combined : List SearchResult) (seen : List String) (numLimit : Nat),
      ∃ new,
        (add_results combined seen results numLimit).combined = combined ++ new ∧
        (add_results combined seen results numLimit).seen =
          (new.map (fun r => r.link)).reverse ++ seen ∧
        (∀ r ∈ new, r.link ∉ seen) ∧ ((new.map (fun r => r.link))).Nodup := by
  induction results with
  | nil =>
    intro combined seen numLimit
    exact ⟨[], by simp [add_results]⟩
  | cons r rest ih =>
    intro combined seen numLimit
    by_cases h : r.link ∈ seen
    · simpa only [add_results, if_pos h] using ih combined seen numLimit
    · by_cases h2 : numLimit ≤ combined.length + 1
      · refine ⟨[r], ?_⟩
        simp only [add_results, if_neg h, if_pos h2]
        refine ⟨by simp, by simp, ?_, by simp⟩
        intro x hx
        rw [List.mem_singleton] at hx
        subst hx
        exact h
      · obtain ⟨new, hc, hs, hfresh, hnd⟩ := ih (combined ++ [r]) (r.link :: seen) numLimit
        refine ⟨r :: new, ?_, ?_, ?_, ?_⟩
        · simp only [add_results, if_neg h, if_neg h2, hc, List.append_assoc,
            List.singleton_append]
        · simp only [add_results, if_neg h, if_neg h2, hs, List.map_cons,
            List.reverse_cons, List.append_assoc, List.singleton_append]
        · intro x hx
          rcases List.mem_cons.mp hx with rfl | hx2
          · exact h
          · intro hmem
            exact hfresh x hx2 (List.mem_cons_of_mem _ hmem)
        · simp only [List.map_cons, List.nodup_cons]
          refine ⟨?_, hnd⟩
          intro hmem
          obtain ⟨x, hx, hlink⟩ := List.mem_map.mp hmem
          exact hfresh x hx (hlink ▸ List.mem_cons_self _ _)

theorem add_results_hit (results : List SearchResult) :
    ∀ (combined : List SearchResult) (seen : List String) (numLimit : Nat),
      (add_results combined seen results numLimit).limitHit = true ↔
        ((add_results combined seen results numLimit).combined ≠ combined ∧
          numLimit ≤ (add_results combined seen results numLimit).combined.length) := by
  induction results with
  | nil =>
    intro combined seen numLimit
    simp [add_results]
  | cons r rest ih =>
    intro combined seen numLimit
    by_cases h : r.link ∈ seen
    · simp only [add_results, if_pos h]
      exact ih combined seen numLimit
    · by_cases h2 : numLimit ≤ combined.length + 1
      · simp only [add_results, if_neg h, if_pos h2]
        constructor
        · intro _
          refine ⟨?_, by simpa using h2⟩
          intro heq
          have := congrArg List.length heq
          simp only [List.length_append, List.length_singleton] at this
          omega
        · intro _; trivial
      · simp only [add_results, if_neg h, if_neg h2]
        obtain ⟨new, hc, _, _, _⟩ := add_results_decomp rest (combined ++ [r])
          (r.link :: seen) numLimit
        rw [ih (combined ++ [r]) (r.link :: seen) numLimit]
        constructor
        · rintro ⟨hne, hlen⟩
          refine ⟨?_, hlen⟩
          rw [hc]
          intro heq
          have := congrArg List.length heq
          simp only [List.append_assoc, List.length_append,
            List.length_singleton] at this
          omega
        · rintro ⟨_, hlen⟩
          refine ⟨?_, hlen⟩
          rw [hc]
          intro heq
          have hlen2 := congrArg List.length heq
          have hlen3 := hlen
          rw [hc] at hlen3
          simp only [List.append_assoc, List.length_append,
            List.length_singleton] at hlen2 hlen3
          omega

theorem add_results_cap (results : List SearchResult) :
    ∀ (combined : List SearchResult) (seen : List String) (numLimit : Nat),
      combined.length < numLimit →
      (add_results combined seen results numLimit).combined.length ≤ numLimit := by
  induction results with
  | nil => intro combined seen numLimit h; exact Nat.le_of_lt h
  | cons r rest ih =>
    intro combined seen numLimit h
    by_cases hm : r.link ∈ seen
    · simp only [add_results, if_pos hm]
      exact ih combined seen numLimit h
    · by_cases h2 : numLimit ≤ combined.length + 1
      · simp only [add_results, if_neg hm, if_pos h2, List.length_append,
          List.length_singleton]
        omega
      · simp only [add_results, if_neg hm, if_neg h2]
        refine ih (combined ++ [r]) (r.link :: seen) numLimit ?_
        simp only [List.length_append, List.length_singleton]
        omega

/-! ### Claim C10 -/

/-- C10: `add_results` preserves the invariant that `seen_links` is the
set of links of `combined_results`; it never appends a result whose
link is already seen; it records the link of everything it appends (the
appended suffix has fresh, pairwise-distinct links); it returns `True`
exactly when the call appended something and `combined_results` ended
at or above `num_limit`; and a list that started below `num_limit`
never ends above it. -/
theorem C10_add_results_invariants
    (combined : List SearchResult) (seen : List String)
    (results : List SearchResult) (numLimit : Nat)
    (hinv : ∀ L, L ∈ seen ↔ L ∈ combined.map (fun r => r.link)) :
    (∀ L, L ∈ (add_results combined seen results numLimit).seen ↔
        L ∈ (add_results combined seen results numLimit).combined.map
          (fun r => r.link)) ∧
    (∃ new, (add_results combined seen results numLimit).combined =
        combined ++ new ∧
      (∀ r ∈ new, r.link ∉ seen) ∧ ((new.map (fun r => r.link))).Nodup) ∧
    ((add_results combined seen results numLimit).limitHit = true ↔
      ((add_results combined seen results numLimit).combined ≠ combined ∧
        numLimit ≤ (add_results combined seen results numLimit).combined.length)) ∧
    (combined.length < numLimit →
      (add_results combined seen results numLimit).combined.length ≤ numLimit) := by
  obtain ⟨new, hc, hs, hfresh, hnd⟩ := add_results_decomp results combined seen numLimit
  refine ⟨?_, ⟨new, hc, hfresh, hnd⟩, add_results_hit results combined seen numLimit,
    add_results_cap results combined seen numLimit⟩
  intro L
  rw [hs, hc]
  constructor
  · intro hL
    rcases List.mem_append.mp hL with hnew | hseen
    · rw [List.map_append, List.mem_append]
      exact Or.inr (List.mem_reverse.mp hnew)
    · rw [List.map_append, List.mem_append]
      exact Or.inl ((hinv L).mp hseen)
  · intro hL
    rw [List.map_append, List.mem_append] at hL
    rcases hL with hcomb | hnew
    · exact List.mem_append.mpr (Or.inr ((hinv L).mpr hcomb))
    · exact List.mem_append.mpr (Or.inl (List.mem_reverse.mpr hnew))

/-- Witness for C10 at a concrete input. -/
theorem C10_witness :
    (∀ L : String, L ∈ ([] : List String) ↔
        L ∈ ([] : List SearchResult).map (fun r => r.link)) ∧
    ((add_results [] [] [⟨"t", "l", "s"⟩] 3).combined.length < 4) := by
  refine ⟨by simp, ?_⟩
  have h := C10_add_results_invariants [] [] [⟨"t", "l", "s"⟩] 3 (by simp)
  obtain ⟨-, ⟨new, hc, -, -⟩, -, hcap⟩ := h
  have := hcap (by simp)
  simp only [List.nil_append] at hc
  omega

/-! ### Shape lemmas for `combinedsearch` -/

theorem resultsOf_map_singleton (rs : List SearchResult) :
    resultsOf (rs.map (fun r => SEvent.results [r])) = rs := by
  induction rs with
  | nil => rfl
  | cons r rest ih =>
    simp only [resultsOf, List.map_cons, List.flatten_cons,
      List.singleton_append] at ih ⊢
    rw [ih]

theorem specSeen_length (rs : List SearchResult) :
    ∀ (seen : List String),
      (specSeen rs seen).length = seen.length + (specDedup rs seen).length := by
  induction rs with
  | nil => intro seen; simp [specSeen, specDedup]
  | cons r0 rest ih =>
    intro seen
    by_cases hm : r0.link ∈ seen
    · simp only [specSeen, specDedup, if_pos hm]
      exact ih seen
    · simp only [specSeen, specDedup, if_neg hm]
      rw [ih (r0.link :: seen)]
      simp only [List.length_cons, List.length_cons]
      omega

theorem combinedsearch_valid_shape (q : String) (n : Nat)
    (google duck : ProviderOutcome) (hq : sanitize_query q ≠ "") :
    combinedsearch q n google duck =
      ((if (emitLoop google.safeResults [] n).stopped = true
        then (emitLoop google.safeResults [] n).emitted
        else (emitLoop google.safeResults [] n).emitted ++
          (emitLoop duck.safeResults (emitLoop google.safeResults [] n).seen
            n).emitted).map (fun r => SEvent.results [r]),
       [Effect.providerCall, Effect.providerCall]) := by
  have hv : validate_query q = some (sanitize_query q) := by
    simp only [validate_query, if_neg hq]
  by_cases hstop : (emitLoop google.safeResults [] n).stopped = true <;>
    simp [combinedsearch, hv, hstop]

theorem combinedsearch_invalid (q : String) (n : Nat)
    (google duck : ProviderOutcome) (hq : sanitize_query q = "") :
    combinedsearch q n google duck =
      ([SEvent.error "Invalid query. Please provide a valid search term."], []) := by
  simp [combinedsearch, validate_query, hq]

/-! ### Claim C3 -/

/-- C3: for every pair of provider result lists and any limit, the
aggregated output (a) contains each link at most once and (b) only
emits, for each link, the first result carrying that link in the
Google-then-DuckDuckGo concatenation — so Google results are
considered first and the Google copy wins on a shared link. -/
theorem C3_dedup_google_precedence (q : String) (n : Nat)
    (gs ds : List SearchResult) (hq : sanitize_query q ≠ "") :
    ((resultsOf (combinedsearch q n (.ok gs) (.ok ds)).1).map
      (fun r => r.link)).Nodup ∧
    ∀ r ∈ resultsOf (combinedsearch q n (.ok gs) (.ok ds)).1,
      (gs ++ ds).find? (fun x => x.link == r.link) = some r := by
  rw [combinedsearch_valid_shape q n _ _ hq]
  simp only [ProviderOutcome.safeResults]
  by_cases hstop : (emitLoop gs [] n).stopped = true
  · rw [if_pos hstop, resultsOf_map_singleton]
    refine ⟨emitLoop_nodup gs [] n, ?_⟩
    intro r hr
    exact find?_append_some _ ds (emitLoop_fresh gs [] n r hr).2
  · rw [if_neg hstop, resultsOf_map_singleton]
    have hsf : (emitLoop gs [] n).stopped = false := by
      revert hstop
      cases (emitLoop gs [] n).stopped <;> simp
    obtain ⟨hge, hgs⟩ := emitLoop_no_stop gs [] n hsf
    constructor
    · rw [List.map_append]
      rw [List.nodup_append]
      refine ⟨emitLoop_nodup gs [] n, emitLoop_nodup ds _ n, ?_⟩
      intro L hLg hLd
      obtain ⟨r1, hr1, hl1⟩ := List.mem_map.mp hLg
      obtain ⟨r2, hr2, hl2⟩ := List.mem_map.mp hLd
      have h1 : r1.link ∈ (emitLoop gs [] n).seen :=
        emitLoop_emitted_seen gs [] n r1 hr1
      have h2 : r2.link ∉ (emitLoop gs [] n).seen :=
        (emitLoop_fresh ds _ n r2 hr2).1
      exact h2 (by rw [hl2, ← hl1]; exact h1)
    · intro r hr
      rcases List.mem_append.mp hr with hrg | hrd
      · exact find?_append_some _ ds (emitLoop_fresh gs [] n r hrg).2
      · have hfresh := emitLoop_fresh ds _ n r hrd
        have hnone : gs.find? (fun x => x.link == r.link) = none := by
          rw [List.find?_eq_none]
          intro x hx hbeq
          have hxlink : x.link = r.link := by simpa using hbeq
          have : x.link ∈ (emitLoop gs [] n).seen := by
            rw [hgs]
            exact specSeen_mem gs [] x hx
          exact hfresh.1 (hxlink ▸ this)
        rw [find?_append_none _ _ hnone]
        exact hfresh.2

/-- Witness for C3 at a concrete input: overlapping link between the
two providers; the Google copy is the one emitted. -/
theorem C3_witness :
    (sanitize_query "capital of France" ≠ "") ∧
    ((resultsOf (combinedsearch "capital of France" 7
        (.ok [⟨"g-title", "http://shared", "g-snip"⟩])
        (.ok [⟨"d-title", "http://shared", "d-snip"⟩,
              ⟨"d2", "http://other", "s2"⟩])).1).map (fun r => r.link)).Nodup := by
  refine ⟨by decide, ?_⟩
  exact (C3_dedup_google_precedence "capital of France" 7
    [⟨"g-title", "http://shared", "g-snip"⟩]
    [⟨"d-title", "http://shared", "d-snip"⟩, ⟨"d2", "http://other", "s2"⟩]
    (by decide)).1

/-! ### Claim C5 -/

/-- C5 counterexample: with `num_limit = 0` the aggregator still emits
one result, because the source checks `len(seen_links) >= num_limit`
only after yielding — refuting "never yields more than N results" at
`N = 0`. -/
theorem C5_counterexample :
    (resultsOf (combinedsearch "q" 0
      (.ok [⟨"t", "l", "s"⟩]) (.ok [])).1).length = 1 := by decide

/-- C5 (amended to positive limits): for every query and limit `N ≥ 1`,
the aggregator emits at most `N` results; and whenever the providers
together supply fewer than `N` unique links, it emits exactly the
first-seen dedup of everything supplied. -/
theorem C5_cap_enforcement_amended (q : String) (n : Nat)
    (google duck : ProviderOutcome) (hq : sanitize_query q ≠ "")
    (hn : 1 ≤ n) :
    (resultsOf (combinedsearch q n google duck).1).length ≤ n ∧
    ((specDedup (google.safeResults ++ duck.safeResults) []).length < n →
      resultsOf (combinedsearch q n google duck).1 =
        specDedup (google.safeResults ++ duck.safeResults) []) := by
  rw [combinedsearch_valid_shape q n _ _ hq]
  have h0 : ([] : List String).length < n := by simpa using hn
  constructor
  · by_cases hstop : (emitLoop google.safeResults [] n).stopped = true
    · rw [if_pos hstop, resultsOf_map_singleton]
      have hlen := emitLoop_length google.safeResults [] n
      have hcap := emitLoop_cap google.safeResults [] n h0
      simp only [List.length_nil] at hlen
      omega
    · rw [if_neg hstop, resultsOf_map_singleton]
      have hsf : (emitLoop google.safeResults [] n).stopped = false := by
        revert hstop
        cases (emitLoop google.safeResults [] n).stopped <;> simp
      have hlt := emitLoop_no_stop_lt google.safeResults [] n hsf h0
      have hlen1 := emitLoop_length google.safeResults [] n
      have hlen2 := emitLoop_length duck.safeResults
        (emitLoop google.safeResults [] n).seen n
      have hcap2 := emitLoop_cap duck.safeResults
        (emitLoop google.safeResults [] n).seen n hlt
      simp only [List.length_nil, List.length_append] at hlen1 hlen2 ⊢
      omega
  · intro hlt
    have hseen : (specSeen (google.safeResults ++ duck.safeResults) []).length < n := by
      rw [specSeen_length]
      simpa using hlt
    rw [specSeen_append] at hseen
    have hgseen : (specSeen google.safeResults []).length < n :=
      lt_of_le_of_lt (specSeen_length_le duck.safeResults _) hseen
    have hgsf := emitLoop_no_stop_of_lt google.safeResults [] n hgseen
    obtain ⟨hge, hgs⟩ := emitLoop_no_stop google.safeResults [] n hgsf
    have hdsf := emitLoop_no_stop_of_lt duck.safeResults
      (emitLoop google.safeResults [] n).seen n (by rw [hgs]; exact hseen)
    obtain ⟨hde, hds⟩ := emitLoop_no_stop duck.safeResults
      (emitLoop google.safeResults [] n).seen n hdsf
    rw [if_neg (by simp [hgsf]), resultsOf_map_singleton, hge, hde, hgs,
      specDedup_append]

/-- Witness for C5 at a concrete input. -/
theorem C5_witness :
    (sanitize_query "query" ≠ "") ∧ 1 ≤ 2 ∧
    (resultsOf (combinedsearch "query" 2
      (.ok [⟨"t1", "l1", "s1"⟩, ⟨"t2", "l2", "s2"⟩, ⟨"t3", "l3", "s3"⟩])
      (.ok [⟨"t4", "l4", "s4"⟩])).1).length ≤ 2 := by
  refine ⟨by decide, by decide, ?_⟩
  exact (C5_cap_enforcement_amended "query" 2
    (.ok [⟨"t1", "l1", "s1"⟩, ⟨"t2", "l2", "s2"⟩, ⟨"t3", "l3", "s3"⟩])
    (.ok [⟨"t4", "l4", "s4"⟩]) (by decide) (by decide)).1

/-! ### Claim C6 -/

/-- C6 counterexample: Google fails, DuckDuckGo succeeds with a list
whose two entries share one link — the aggregate is the one-element
dedup, not the DuckDuckGo results "exactly". -/
theorem C6_counterexample :
    resultsOf (combinedsearch "q" 7 .failed
        (.ok [⟨"t", "l", "s"⟩, ⟨"t", "l", "s"⟩])).1 = [⟨"t", "l", "s"⟩] ∧
    ([⟨"t", "l", "s"⟩] : List SearchResult) ≠
      [⟨"t", "l", "s"⟩, ⟨"t", "l", "s"⟩] := by decide

/-- C6 (amended): for every valid query, limit, and survivor result
list, if one provider fails (its gathered outcome is an exception,
skipped by the `isinstance` list check) and the other succeeds, the
aggregated event stream — in either failure direction — contains no
error event and carries exactly the first-seen dedup of the surviving
list truncated at the limit (one element past a zero limit, since the
cap is checked after the yield); it is nonempty whenever the surviving
provider returned at least one result; and it equals the surviving
results exactly when they have pairwise-distinct links and fit within
the limit. -/
theorem C6_partial_failure_amended (q : String) (n : Nat)
    (rs : List SearchResult) (hq : sanitize_query q ≠ "") :
    (∀ msg, SEvent.error msg ∉ (combinedsearch q n .failed (.ok rs)).1) ∧
    (∀ msg, SEvent.error msg ∉ (combinedsearch q n (.ok rs) .failed).1) ∧
    resultsOf (combinedsearch q n .failed (.ok rs)).1 =
      (specDedup rs []).take (max n 1) ∧
    resultsOf (combinedsearch q n (.ok rs) .failed).1 =
      (specDedup rs []).take (max n 1) ∧
    (rs ≠ [] → (combinedsearch q n .failed (.ok rs)).1 ≠ []) ∧
    ((rs.map (fun r => r.link)).Nodup → rs.length ≤ n →
      (combinedsearch q n .failed (.ok rs)).1 =
        rs.map (fun r => SEvent.results [r]) ∧
      (combinedsearch q n (.ok rs) .failed).1 =
        rs.map (fun r => SEvent.results [r])) := by
  have hA : (combinedsearch q n .failed (.ok rs)).1 =
      ((emitLoop rs [] n).emitted).map (fun r => SEvent.results [r]) := by
    rw [combinedsearch_valid_shape q n _ _ hq]
    simp [ProviderOutcome.safeResults, emitLoop]
  have hB : (combinedsearch q n (.ok rs) .failed).1 =
      ((emitLoop rs [] n).emitted).map (fun r => SEvent.results [r]) := by
    rw [combinedsearch_valid_shape q n _ _ hq]
    simp only [ProviderOutcome.safeResults]
    by_cases hstop : (emitLoop rs [] n).stopped = true
    · simp [if_pos hstop]
    · simp [if_neg hstop, emitLoop]
  have htake : (emitLoop rs [] n).emitted = (specDedup rs []).take (max n 1) := by
    have h := emitLoop_take rs [] n
    have hk : (if ([] : List String).length < n then
        n - ([] : List String).length else 1) = max n 1 := by
      simp only [List.length_nil]
      split <;> omega
    rw [hk] at h
    exact h
  refine ⟨?_, ?_, ?_, ?_, ?_, ?_⟩
  · intro msg hmem
    rw [hA] at hmem
    obtain ⟨r, -, habs⟩ := List.mem_map.mp hmem
    exact SEvent.noConfusion habs
  · intro msg hmem
    rw [hB] at hmem
    obtain ⟨r, -, habs⟩ := List.mem_map.mp hmem
    exact SEvent.noConfusion habs
  · rw [hA, resultsOf_map_singleton, htake]
  · rw [hB, resultsOf_map_singleton, htake]
  · intro hne hevts
    rw [hA] at hevts
    have hemit : (emitLoop rs [] n).emitted = [] := by
      cases hemit : (emitLoop rs [] n).emitted with
      | nil => rfl
      | cons a l =>
        rw [hemit] at hevts
        simp at hevts
    rw [htake] at hemit
    cases rs with
    | nil => exact hne rfl
    | cons r rest =>
      have hsd : specDedup (r :: rest) [] = r :: specDedup rest [r.link] := by
        simp [specDedup]
      rw [hsd] at hemit
      have h1 : 1 ≤ max n 1 := le_max_right n 1
      have hmax : max n 1 = (max n 1 - 1) + 1 := by omega
      rw [hmax, List.take_succ_cons] at hemit
      exact absurd hemit (by simp)
  · intro hnd hlen
    have hall : (emitLoop rs [] n).emitted = rs :=
      emitLoop_all rs [] n hnd (by simp) (by simpa using hlen)
    exact ⟨by rw [hA, hall], by rw [hB, hall]⟩

/-- Witness for C6 at a concrete input. -/
theorem C6_witness :
    (sanitize_query "news" ≠ "") ∧
    (combinedsearch "news" 7 .failed (.ok [⟨"t1", "l1", "s1"⟩])).1 =
      [SEvent.results [⟨"t1", "l1", "s1"⟩]] := by
  refine ⟨by decide, ?_⟩
  exact ((C6_partial_failure_amended "news" 7 [⟨"t1", "l1", "s1"⟩]
    (by decide)).2.2.2.2.2 (by decide) (by decide)).1

/-! ### Orchestrator and cache helper lemmas -/

theorem get_cache_after_put (st : RedisStore) (t0 t1 : Nat) (q : String)
    (resp : String) (llm : Option String) (srs : List SearchResult) :
    get_cached_response (cache_response st t0 q resp llm srs) t1 q =
      if t1 < t0 + 3600 then some ⟨resp, llm, srs⟩ else none := by
  simp [get_cached_response, cache_response, redisGet]

theorem combinedsearch_effects_countP (q : String) (n : Nat)
    (g d : ProviderOutcome) (p : Effect → Bool)
    (hp : p Effect.providerCall = false) :
    ((combinedsearch q n g d).2).countP p = 0 := by
  cases hv : validate_query q
  · simp [combinedsearch, hv]
  · simp only [combinedsearch, hv]
    split <;> simp [List.countP_cons, List.countP_nil, hp]

theorem stream_query_llm_interrupted (query : String)
    (srs : List SearchResult) (nmArg : Option String) (lines : List LineItem)
    (url : String) (hurl : lookupConfig (nmArg.getD DEFAULT_LLM) = some url)
    (hune : ¬ url = "") :
    stream_query_llm query srs nmArg true .ok lines true =
      .ok ((processLines lines).1 ++
        [LLMChunk.fault "warning" "Streaming failed, providing partial results."
          "N/A"] ++
        (processLines lines).2.map (fun t => LLMChunk.token t none),
        [Effect.modelCall]) := by
  simp [stream_query_llm, hurl, hune]

theorem stream_query_llm_clean (query : String)
    (srs : List SearchResult) (nmArg : Option String) (lines : List LineItem)
    (url : String) (hurl : lookupConfig (nmArg.getD DEFAULT_LLM) = some url)
    (hune : ¬ url = "") :
    stream_query_llm query srs nmArg true .ok lines false =
      .ok ((processLines lines).1, [Effect.modelCall]) := by
  simp [stream_query_llm, hurl, hune]

/-- The full success-path shape of the orchestrator: given an
under-limit counter, a cache miss, a stream call returning `chunks`
with effects `seffs`, and a full-response call returning `resp`, the
request forwards the search events (when enabled), wraps every stream
chunk as an `llm_response` event, and ends with the cache write and
the scheduled DB write. -/
theorem orch_main_path (env : OrchEnv) (query : String) (searchEnabled : Bool)
    (llmName : Option String) (maxChats numLimit : Nat)
    (chunks : List LLMChunk) (seffs : List Effect) (resp : String)
    (hlimit : env.chatCountBefore + 1 ≤ maxChats)
    (hmiss : get_cached_response env.store env.now query = none)
    (hstream : stream_query_llm query [] llmName env.hfToken env.connect
        env.lines env.interrupted = .ok (chunks, seffs))
    (hfull : query_llm query
        (resultsOf (combinedsearch query numLimit env.google env.duck).1)
        llmName env.invoke = .ok (resp, [Effect.modelCall])) :
    get_streaming_response env query searchEnabled llmName maxChats numLimit =
      ⟨(if searchEnabled then
          (combinedsearch query numLimit env.google env.duck).1.map
            forwardSearchEvent
        else []) ++ chunks.map OrchEvent.llmResponse,
       [Effect.rateIncr, Effect.cacheGet] ++
         (if searchEnabled then
            (combinedsearch query numLimit env.google env.duck).2
          else []) ++ seffs ++
         (combinedsearch query numLimit env.google env.duck).2 ++
         [Effect.modelCall,
          Effect.cacheWrite (generate_query_hash query)
            ⟨resp, llmName,
             resultsOf (combinedsearch query numLimit env.google env.duck).1⟩,
          Effect.dbWrite query resp],
       env.chatCountBefore + 1⟩ := by
  have hnl : ¬ maxChats < env.chatCountBefore + 1 := by omega
  cases searchEnabled <;>
    simp [get_streaming_response, hnl, hmiss, hstream, hfull]

/-! ### Claim C2 -/

/-- C2: every request increments the session turn counter as its very
first side effect — before any cache lookup — and when the incremented
count exceeds `MAX_CHATS` the orchestrator yields only the rate-limit
error event, with no cache, search, or model work, and the counter
still incremented. -/
theorem C2_rate_limit_first (env : OrchEnv) (query : String)
    (searchEnabled : Bool) (llmName : Option String)
    (maxChats numLimit : Nat) :
    (get_streaming_response env query searchEnabled llmName maxChats
        numLimit).effects.head? = some Effect.rateIncr ∧
    (maxChats < env.chatCountBefore + 1 →
      get_streaming_response env query searchEnabled llmName maxChats numLimit =
        ⟨[OrchEvent.errorEvt "Chat limit reached for this session."],
         [Effect.rateIncr], env.chatCountBefore + 1⟩) := by
  constructor
  · by_cases h : maxChats < env.chatCountBefore + 1
    · simp [get_streaming_response, h]
    · cases hget : get_cached_response env.store env.now query with
      | some e => simp [get_streaming_response, h, hget]
      | none =>
        cases hstream : stream_query_llm query [] llmName env.hfToken
            env.connect env.lines env.interrupted with
        | error msg =>
          cases searchEnabled <;>
            simp [get_streaming_response, h, hget, hstream]
        | ok sOut =>
          cases hfull : query_llm query
              (resultsOf (combinedsearch query numLimit env.google
                env.duck).1) llmName env.invoke with
          | error m =>
            cases searchEnabled <;>
              simp [get_streaming_response, h, hget, hstream, hfull]
          | ok fOut =>
            cases searchEnabled <;>
              simp [get_streaming_response, h, hget, hstream, hfull]
  · intro h
    simp [get_streaming_response, h]

/-- Witness for C2 at a concrete input: the 51st request of a session
with `MAX_CHATS = 50` is rejected and still counted. -/
theorem C2_witness :
    (50 < 50 + 1) ∧
    get_streaming_response
        ⟨50, [], 0, .ok [], .ok [], true, .ok, [], false, none⟩
        "hi" true none 50 7 =
      ⟨[OrchEvent.errorEvt "Chat limit reached for this session."],
       [Effect.rateIncr], 51⟩ :=
  ⟨by decide,
   (C2_rate_limit_first ⟨50, [], 0, .ok [], .ok [], true, .ok, [], false, none⟩
     "hi" true none 50 7).2 (by decide)⟩

/-! ### Claim C8 -/

/-- C8 counterexample: the cache is keyed by a hash of the raw query
text, not the normalized text — a put under `"Hello"` followed by a
get with `"hello"` (identical normalized text, well within the TTL)
misses. -/
theorem C8_counterexample :
    sanitize_query "Hello" = sanitize_query "hello" ∧ (10 : Nat) < 0 + 3600 ∧
    get_cached_response (cache_response [] 0 "Hello" "resp" none []) 10
      "hello" = none := by decide

/-- C8 (amended to raw-text keys): a put followed by a get with the
identical raw query text returns the stored
`{response, llm_used, search_results}` entry while less than 3600
seconds have elapsed, and reports it absent afterwards; both sides key
the store by the same hash of the raw text, so this holds for every
query string. -/
theorem C8_cache_roundtrip_amended (st : RedisStore) (t0 t1 : Nat)
    (q : String) (resp : String) (llm : Option String)
    (srs : List SearchResult) :
    get_cached_response (cache_response st t0 q resp llm srs) t1 q =
      if t1 < t0 + 3600 then some ⟨resp, llm, srs⟩ else none :=
  get_cache_after_put st t0 t1 q resp llm srs

/-! ### Claim C1 -/

/-- C1 counterexample: the first request cached the answer under the
raw text `"hello"`; a second request `"Hello"` — the same normalized
text, inside the TTL window and under the turn limit — misses the
cache and performs two model calls instead of the claimed zero. -/
theorem C1_counterexample :
    sanitize_query "Hello" = sanitize_query "hello" ∧
    ((get_streaming_response
        ⟨0, cache_response [] 0 "hello" "resp" (some "gemma_flash_2.0") [], 5,
         .ok [], .ok [], true, .ok, [], false, some "resp"⟩
        "Hello" true none 50 7).effects.countP Effect.isModelCall = 2) := by
  decide

/-- C1 (amended to identical raw text): once a query has been answered
and cached, a second request with the *same raw text*, within the
3600-second TTL and with the session under its turn limit, yields
exactly one `full_response` event carrying the cached response, search
results and `llm_used`, and terminates having performed only the
counter increment and the cache read — zero provider calls, zero model
calls, no cache write, and no scheduled persistence. -/
theorem C1_cache_hit_amended (env : OrchEnv) (query : String)
    (searchEnabled : Bool) (llmName : Option String)
    (maxChats numLimit : Nat) (st0 : RedisStore) (t0 : Nat) (resp : String)
    (llm : Option String) (srs : List SearchResult)
    (hstore : env.store = cache_response st0 t0 query resp llm srs)
    (httl : env.now < t0 + 3600)
    (hlimit : env.chatCountBefore + 1 ≤ maxChats) :
    get_streaming_response env query searchEnabled llmName maxChats numLimit =
      ⟨[OrchEvent.fullResponse resp srs llm], [Effect.rateIncr, Effect.cacheGet],
       env.chatCountBefore + 1⟩ := by
  have hget : get_cached_response env.store env.now query =
      some ⟨resp, llm, srs⟩ := by
    rw [hstore, get_cache_after_put, if_pos httl]
  have hnl : ¬ maxChats < env.chatCountBefore + 1 := by omega
  simp [get_streaming_response, hnl, hget]

/-- Witness for C1 at a concrete input. -/
theorem C1_witness :
    (5 : Nat) < 0 + 3600 ∧ (0 : Nat) + 1 ≤ 50 ∧
    get_streaming_response
        ⟨0, cache_response [] 0 "hello" "r" none [], 5,
         .ok [], .ok [], true, .ok, [], false, none⟩
        "hello" true none 50 7 =
      ⟨[OrchEvent.fullResponse "r" [] none], [Effect.rateIncr, Effect.cacheGet],
       1⟩ :=
  ⟨by decide, by decide,
   C1_cache_hit_amended
     ⟨0, cache_response [] 0 "hello" "r" none [], 5,
      .ok [], .ok [], true, .ok, [], false, none⟩
     "hello" true none 50 7 [] 0 "r" none [] rfl (by decide) (by decide)⟩

/-! ### Claim C4 -/

/-- C4 counterexample: for a whitespace-only query the orchestrator
does not terminate at validation — it performs the cache lookup and
two model calls, the validation error being emitted only by the search
aggregator. -/
theorem C4_counterexample :
    sanitize_query "   " = "" ∧
    ((get_streaming_response
        ⟨0, [], 0, .ok [], .ok [], true, .ok, [], false, some "ans"⟩
        "   " true none 50 7).effects.countP Effect.isModelCall = 2) ∧
    ((get_streaming_response
        ⟨0, [], 0, .ok [], .ok [], true, .ok, [], false, some "ans"⟩
        "   " true none 50 7).effects.countP Effect.isCacheGet = 1) := by
  decide

/-- C4 (amended): for a query whose normalized form is empty, the
search aggregator emits the validation-error event as the first client
event and performs zero provider calls; the orchestrator, however,
performs the cache lookup before it (its first two effects are the
counter increment and the cache read) and proceeds to the model calls
afterwards rather than terminating. -/
theorem C4_empty_query_amended (env : OrchEnv) (query : String)
    (llmName : Option String) (maxChats numLimit : Nat) (url ans : String)
    (hq : sanitize_query query = "")
    (hlimit : env.chatCountBefore + 1 ≤ maxChats)
    (hmiss : get_cached_response env.store env.now query = none)
    (hurl : lookupConfig (llmName.getD DEFAULT_LLM) = some url)
    (hune : ¬ url = "") (htok : env.hfToken = true)
    (hconn : env.connect = ConnectOutcome.ok)
    (hinv : env.invoke = some ans) :
    (get_streaming_response env query true llmName maxChats
        numLimit).events.head? =
      some (OrchEvent.searchError
        "Invalid query. Please provide a valid search term.") ∧
    (get_streaming_response env query true llmName maxChats
        numLimit).effects.countP Effect.isProviderCall = 0 ∧
    (get_streaming_response env query true llmName maxChats
        numLimit).effects.countP Effect.isModelCall = 2 ∧
    (get_streaming_response env query true llmName maxChats
        numLimit).effects.take 2 = [Effect.rateIncr, Effect.cacheGet] := by
  have hcs := combinedsearch_invalid query numLimit env.google env.duck hq
  have hstream : ∃ chunks, stream_query_llm query [] llmName env.hfToken
      env.connect env.lines env.interrupted = .ok (chunks, [Effect.modelCall]) := by
    rw [htok, hconn]
    cases env.interrupted
    · exact ⟨_, stream_query_llm_clean query [] llmName env.lines url hurl hune⟩
    · exact ⟨_, stream_query_llm_interrupted query [] llmName env.lines url
        hurl hune⟩
  obtain ⟨chunks, hstream⟩ := hstream
  have hfull : query_llm query
      (resultsOf (combinedsearch query numLimit env.google env.duck).1)
      llmName env.invoke =
      .ok (⟨stripChars ans.data⟩, [Effect.modelCall]) := by
    rw [hinv]
    simp [query_llm, hurl]
  rw [orch_main_path env query true llmName maxChats numLimit chunks
    [Effect.modelCall] ⟨stripChars ans.data⟩ hlimit hmiss hstream hfull]
  rw [hcs]
  simp [forwardSearchEvent, List.countP_cons, List.countP_nil,
    Effect.isProviderCall, Effect.isModelCall]

/-- Witness for C4 at a concrete input. -/
theorem C4_witness :
    sanitize_query " " = "" ∧
    (get_streaming_response
        ⟨0, [], 0, .ok [], .ok [], true, .ok, [], false, some "a"⟩
        " " true none 50 7).effects.countP Effect.isProviderCall = 0 :=
  ⟨by decide,
   (C4_empty_query_amended
     ⟨0, [], 0, .ok [], .ok [], true, .ok, [], false, some "a"⟩ " " none 50 7
     "https://api-inference.huggingface.co/models/google/gemma-1.1-2b-it" "a"
     (by decide) (by decide) rfl (by decide) (by decide) rfl rfl rfl).2.1⟩

/-! ### Claim C7 -/

/-- C7 counterexample: the stream delivers three tokens and is then
interrupted; the client does receive the warning followed by exactly
those three tokens replayed, but — contrary to the claim — the
orchestrator still performs a cache write for that attempt, because
the interruption is absorbed inside the stream generator. -/
theorem C7_counterexample :
    (get_streaming_response
        ⟨0, [], 0, .ok [], .ok [], true, .ok,
         [.tokenLine "The" "", .tokenLine " answer" "", .tokenLine " is" ""],
         true, some "The answer is"⟩ "q" false none 50 7).events =
      [OrchEvent.llmResponse (.token "The" (some "")),
       OrchEvent.llmResponse (.token " answer" (some "")),
       OrchEvent.llmResponse (.token " is" (some "")),
       OrchEvent.llmResponse (.fault "warning"
         "Streaming failed, providing partial results." "N/A"),
       OrchEvent.llmResponse (.token "The" none),
       OrchEvent.llmResponse (.token " answer" none),
       OrchEvent.llmResponse (.token " is" none)] ∧
    (get_streaming_response
        ⟨0, [], 0, .ok [], .ok [], true, .ok,
         [.tokenLine "The" "", .tokenLine " answer" "", .tokenLine " is" ""],
         true, some "The answer is"⟩ "q" false none 50 7).effects.countP
      Effect.isCacheWrite = 1 := by decide

/-- C7 (amended): when the model stream is interrupted after the
delivered tokens, the client receives the streamed chunks, then one
warning event, then a re-emission of exactly the token texts already
received — but the orchestrator still issues the separate
non-streaming model call and performs its cache write for that
attempt, since the generator absorbs the interruption instead of
raising. -/
theorem C7_interrupted_stream_amended (env : OrchEnv) (query : String)
    (searchEnabled : Bool) (llmName : Option String)
    (maxChats numLimit : Nat) (url ans : String)
    (hlimit : env.chatCountBefore + 1 ≤ maxChats)
    (hmiss : get_cached_response env.store env.now query = none)
    (hurl : lookupConfig (llmName.getD DEFAULT_LLM) = some url)
    (hune : ¬ url = "") (htok : env.hfToken = true)
    (hconn : env.connect = ConnectOutcome.ok)
    (hint : env.interrupted = true) (hinv : env.invoke = some ans) :
    (get_streaming_response env query searchEnabled llmName maxChats
        numLimit).events =
      (if searchEnabled then
          (combinedsearch query numLimit env.google env.duck).1.map
            forwardSearchEvent
        else []) ++
        ((processLines env.lines).1.map OrchEvent.llmResponse ++
         [OrchEvent.llmResponse (.fault "warning"
            "Streaming failed, providing partial results." "N/A")] ++
         (processLines env.lines).2.map
           (fun t => OrchEvent.llmResponse (.token t none))) ∧
    (get_streaming_response env query searchEnabled llmName maxChats
        numLimit).effects.countP Effect.isCacheWrite = 1 := by
  have hstream : stream_query_llm query [] llmName env.hfToken env.connect
      env.lines env.interrupted =
      .ok ((processLines env.lines).1 ++
        [LLMChunk.fault "warning" "Streaming failed, providing partial results."
          "N/A"] ++
        (processLines env.lines).2.map (fun t => LLMChunk.token t none),
        [Effect.modelCall]) := by
    rw [htok, hconn, hint]
    exact stream_query_llm_interrupted query [] llmName env.lines url hurl hune
  have hfull : query_llm query
      (resultsOf (combinedsearch query numLimit env.google env.duck).1)
      llmName env.invoke =
      .ok (⟨stripChars ans.data⟩, [Effect.modelCall]) := by
    rw [hinv]
    simp [query_llm, hurl]
  rw [orch_main_path env query searchEnabled llmName maxChats numLimit _
    [Effect.modelCall] ⟨stripChars ans.data⟩ hlimit hmiss hstream hfull]
  have hc0 : ((combinedsearch query numLimit env.google env.duck).2).countP
      Effect.isCacheWrite = 0 :=
    combinedsearch_effects_countP query numLimit env.google env.duck _ rfl
  constructor
  · simp
  · cases searchEnabled <;>
      simp [List.countP_append, List.countP_cons, List.countP_nil, hc0,
        Effect.isCacheWrite]

/-- Witness for C7 at a concrete input. -/
theorem C7_witness :
    ((0 : Nat) + 1 ≤ 50) ∧
    (get_streaming_response
        ⟨0, [], 0, .ok [], .ok [], true, .ok, [.tokenLine "Hi" "m"], true,
         some "Hi"⟩ "q" false none 50 7).effects.countP
      Effect.isCacheWrite = 1 :=
  ⟨by decide,
   (C7_interrupted_stream_amended
     ⟨0, [], 0, .ok [], .ok [], true, .ok, [.tokenLine "Hi" "m"], true,
      some "Hi"⟩ "q" false none 50 7
     "https://api-inference.huggingface.co/models/google/gemma-1.1-2b-it" "Hi"
     (by decide) rfl (by decide) (by decide) rfl rfl rfl rfl).2⟩

/-! ### Claim C9 -/

/-- C9 counterexample: `query_llm` resolves the model name *before* its
`try` block, so an unsupported model name propagates a `ValueError`
out of the function instead of returning the fixed error string. -/
theorem C9_counterexample :
    query_llm "q" [] (some "bogus") none =
      Except.error ("LLM \x27bogus\x27 is not supported.") := rfl

/-- C9 (amended to supported model names): for every supported (or
defaulted) model name, a failing `LLMChain.ainvoke` makes `query_llm`
return the fixed string "An error occurred while processing your
request." instead of raising — and the orchestrator then caches that
string as the response and schedules its persistence as if it were a
genuine full response.  For an unsupported name `query_llm` raises. -/
theorem C9_error_fallback_amended (env : OrchEnv) (query : String)
    (searchEnabled : Bool) (llmName : Option String)
    (maxChats numLimit : Nat) (url : String)
    (hurl : lookupConfig (llmName.getD DEFAULT_LLM) = some url)
    (hune : ¬ url = "")
    (hlimit : env.chatCountBefore + 1 ≤ maxChats)
    (hmiss : get_cached_response env.store env.now query = none)
    (htok : env.hfToken = true) (hconn : env.connect = ConnectOutcome.ok)
    (hinv : env.invoke = none) :
    query_llm query
        (resultsOf (combinedsearch query numLimit env.google env.duck).1)
        llmName none =
      .ok ("An error occurred while processing your request.",
        [Effect.modelCall]) ∧
    Effect.cacheWrite (generate_query_hash query)
        ⟨"An error occurred while processing your request.", llmName,
         resultsOf (combinedsearch query numLimit env.google env.duck).1⟩ ∈
      (get_streaming_response env query searchEnabled llmName maxChats
        numLimit).effects ∧
    Effect.dbWrite query "An error occurred while processing your request." ∈
      (get_streaming_response env query searchEnabled llmName maxChats
        numLimit).effects := by
  have hq : query_llm query
      (resultsOf (combinedsearch query numLimit env.google env.duck).1)
      llmName none =
      .ok ("An error occurred while processing your request.",
        [Effect.modelCall]) := by
    simp [query_llm, hurl]
  refine ⟨hq, ?_⟩
  have hstream : ∃ chunks, stream_query_llm query [] llmName env.hfToken
      env.connect env.lines env.interrupted =
      .ok (chunks, [Effect.modelCall]) := by
    rw [htok, hconn]
    cases env.interrupted
    · exact ⟨_, stream_query_llm_clean query [] llmName env.lines url hurl hune⟩
    · exact ⟨_, stream_query_llm_interrupted query [] llmName env.lines url
        hurl hune⟩
  obtain ⟨chunks, hstream⟩ := hstream
  rw [orch_main_path env query searchEnabled llmName maxChats numLimit chunks
    [Effect.modelCall] "An error occurred while processing your request."
    hlimit hmiss hstream (by rw [hinv]; exact hq)]
  constructor <;> simp [List.mem_append]

/-- Witness for C9 at a concrete input. -/
theorem C9_witness :
    (¬ ("https://api-inference.huggingface.co/models/google/gemma-1.1-2b-it" =
      "")) ∧
    Effect.dbWrite "q" "An error occurred while processing your request." ∈
      (get_streaming_response ⟨0, [], 0, .ok [], .ok [], true, .ok, [], false,
        none⟩ "q" false none 50 7).effects :=
  ⟨by decide,
   (C9_error_fallback_amended
     ⟨0, [], 0, .ok [], .ok [], true, .ok, [], false, none⟩ "q" false none 50 7
     "https://api-inference.huggingface.co/models/google/gemma-1.1-2b-it"
     (by decide) (by decide) (by decide) rfl rfl rfl rfl).2.2⟩
